import Mathlib

/-!
Shallow embedding of `modules/planning/common/path/path_data.cc`
(class `apollo::planning::PathData`).

Doubles are modelled as real numbers; the external collaborators
(`ReferenceLine`, `SLAnalyticTransformation`, `Vec2d`) live outside the
repository's single source file and are modelled from the spec as
records of query functions.  Fallible C++ calls (out-parameters plus a
`bool` result, where the out-parameter is only written on success)
become explicit state passing: a function receives the out-parameter's
prior value and returns the pair of the `bool` result and the
out-parameter's value afterwards.
-/

namespace Apollo

/-- Cartesian path point (`common::PathPoint` proto): position, heading,
curvature and its derivatives, and accumulated arc length `s`. -/
structure PathPoint where
  x : ℝ
  y : ℝ
  z : ℝ
  theta : ℝ
  kappa : ℝ
  dkappa : ℝ
  ddkappa : ℝ
  s : ℝ

instance : Inhabited PathPoint := ⟨⟨0, 0, 0, 0, 0, 0, 0, 0⟩⟩

/-- Frenet-frame path point (`common::FrenetFramePoint` proto):
longitudinal offset `s`, lateral offset `l` and its derivatives.
A default-constructed proto has every field equal to `0`. -/
structure FrenetFramePoint where
  s : ℝ
  l : ℝ
  dl : ℝ
  ddl : ℝ

instance : Inhabited FrenetFramePoint := ⟨⟨0, 0, 0, 0⟩⟩

/-- `common::SLPoint` proto: a (longitudinal, lateral) pair. -/
structure SLPoint where
  s : ℝ
  l : ℝ

/-- Modelled from the spec: `common::math::Vec2d` (not under `src/`),
a plane vector with Euclidean length. -/
structure Vec2d where
  x : ℝ
  y : ℝ

/-- Modelled from the spec: `Vec2d` subtraction (`operator-`, not under
`src/`). -/
def Vec2d.sub (a b : Vec2d) : Vec2d := ⟨a.x - b.x, a.y - b.y⟩

/-- Modelled from the spec: `Vec2d::Length`, the Euclidean norm
(not under `src/`). -/
noncomputable def Vec2d.Length (v : Vec2d) : ℝ := Real.sqrt (v.x ^ 2 + v.y ^ 2)

/-- The fields of `ReferencePoint` read by `PathData::FrenetToCartesian`. -/
structure ReferencePoint where
  heading : ℝ
  kappa : ℝ
  dkappa : ℝ

/-- Modelled from the spec: the `ReferenceLine` collaborator (not under
`src/`) as a record of its three query functions; the two point
conversions may fail, which the C++ signals by a `bool` result. -/
structure ReferenceLine where
  get_point_in_cartesian_frame : SLPoint → Option Vec2d
  get_reference_point : ℝ → ReferencePoint
  get_point_in_frenet_frame : Vec2d → Option SLPoint

/-- Modelled from the spec: the static heading/curvature transform
formulas of `SLAnalyticTransformation` (not under `src/`), abstracted as
a record of two pure functions
`calculate_theta reference_heading reference_kappa l dl` and
`calculate_kappa reference_kappa reference_dkappa l dl ddl`. -/
structure SLAnalyticTransformation where
  calculate_theta : ℝ → ℝ → ℝ → ℝ → ℝ
  calculate_kappa : ℝ → ℝ → ℝ → ℝ → ℝ → ℝ

/-- Modelled from the spec: `common::util::MakePathPoint` (not under
`src/`): builds a `PathPoint` from position, heading and curvature data,
all remaining fields (in particular `s`) at their proto default `0`. -/
def MakePathPoint (x y z theta kappa dkappa ddkappa : ℝ) : PathPoint :=
  ⟨x, y, z, theta, kappa, dkappa, ddkappa, 0⟩

/-- The container state of class `PathData`: the borrowed reference-line
handle (`nullptr` is `none`) and the two stored sequences. -/
structure PathData where
  reference_line_ : Option ReferenceLine
  discretized_path_ : List PathPoint
  frenet_path_ : List FrenetFramePoint

/-- Loop body of `PathData::FrenetToCartesian`: walks the Frenet points,
accumulating converted points in the local vector `path_points`; the
first failing reference-line query aborts the whole loop (`return
false`, modelled by `none`). -/
noncomputable def FrenetToCartesianLoop (rl : ReferenceLine) (tr : SLAnalyticTransformation) :
    List FrenetFramePoint → List PathPoint → Option (List PathPoint)
  | [], path_points => some path_points
  | frenet_point :: rest, path_points =>
    match rl.get_point_in_cartesian_frame ⟨frenet_point.s, frenet_point.l⟩ with
    | none => none
    | some cartesian_point =>
      let ref_point := rl.get_reference_point frenet_point.s
      let theta := tr.calculate_theta ref_point.heading ref_point.kappa
        frenet_point.l frenet_point.dl
      let kappa := tr.calculate_kappa ref_point.kappa ref_point.dkappa
        frenet_point.l frenet_point.dl frenet_point.ddl
      let path_point :=
        MakePathPoint cartesian_point.x cartesian_point.y 0 theta kappa 0 0
      let path_point' :=
        match path_points.getLast? with
        | none => { path_point with s := 0 }
        | some last =>
          let distance :=
            (Vec2d.sub ⟨last.x, last.y⟩ ⟨path_point.x, path_point.y⟩).Length
          { path_point with s := last.s + distance }
      FrenetToCartesianLoop rl tr rest (path_points ++ [path_point'])

/-- `PathData::FrenetToCartesian`: converts a Frenet sequence to a
Cartesian one.  `discretized_path0` is the value held by the output
parameter `*discretized_path` before the call; the result pairs the
`bool` return value with the output parameter's value afterwards (the
C++ assigns `*discretized_path` only after the loop finished). -/
noncomputable def FrenetToCartesian (rl : ReferenceLine) (tr : SLAnalyticTransformation)
    (frenet_path : List FrenetFramePoint)
    (discretized_path0 : List PathPoint) : Bool × List PathPoint :=
  match FrenetToCartesianLoop rl tr frenet_path [] with
  | none => (false, discretized_path0)
  | some path_points => (true, path_points)

/-- Loop body of `PathData::CartesianToFrenet`: projects each Cartesian
point onto the reference line; the first failing projection aborts the
whole loop.  A converted point gets `s` and `l` from the projection and
keeps `dl` and `ddl` at the proto default `0` (source comment: "does not
set dl and ddl here"). -/
def CartesianToFrenetLoop (rl : ReferenceLine) :
    List PathPoint → List FrenetFramePoint → Option (List FrenetFramePoint)
  | [], frenet_frame_points => some frenet_frame_points
  | path_point :: rest, frenet_frame_points =>
    match rl.get_point_in_frenet_frame ⟨path_point.x, path_point.y⟩ with
    | none => none
    | some sl_point =>
      CartesianToFrenetLoop rl rest
        (frenet_frame_points ++ [⟨sl_point.s, sl_point.l, 0, 0⟩])

/-- `PathData::CartesianToFrenet`: converts a Cartesian sequence to a
Frenet one.  `frenet_path0` is the output parameter's prior value; the
C++ assigns `*frenet_path` only after the loop finished. -/
def CartesianToFrenet (rl : ReferenceLine)
    (discretized_path : List PathPoint)
    (frenet_path0 : List FrenetFramePoint) : Bool × List FrenetFramePoint :=
  match CartesianToFrenetLoop rl discretized_path [] with
  | none => (false, frenet_path0)
  | some frenet_frame_points => (true, frenet_frame_points)

/-- `PathData::set_discretized_path`: fails when no reference line is
bound; otherwise stores the Cartesian input and derives the Frenet
sequence from it in place (`&frenet_path_` is the output parameter). -/
def set_discretized_path (pd : PathData) (path : List PathPoint) :
    Bool × PathData :=
  match pd.reference_line_ with
  | none => (false, pd)
  | some rl =>
    let r := CartesianToFrenet rl path pd.frenet_path_
    (r.1, { pd with discretized_path_ := path, frenet_path_ := r.2 })

/-- `PathData::set_frenet_path`: fails when no reference line is bound;
otherwise stores the Frenet input and derives the Cartesian sequence
from it in place (`&discretized_path_` is the output parameter). -/
noncomputable def set_frenet_path (tr : SLAnalyticTransformation) (pd : PathData)
    (frenet_path : List FrenetFramePoint) : Bool × PathData :=
  match pd.reference_line_ with
  | none => (false, pd)
  | some rl =>
    let r := FrenetToCartesian rl tr frenet_path pd.discretized_path_
    (r.1, { pd with frenet_path_ := frenet_path, discretized_path_ := r.2 })

/-- `PathData::Clear`: resets both sequences to empty and the handle to
`nullptr`. -/
def Clear (_pd : PathData) : PathData := ⟨none, [], []⟩

/-- `PathData::set_reference_line`: calls `Clear()` and then stores the
argument handle (which may itself be `nullptr`). -/
def set_reference_line (pd : PathData) (reference_line : Option ReferenceLine) :
    PathData :=
  { Clear pd with reference_line_ := reference_line }

/-- `kDistanceEpsilon` from `PathData::get_path_point_with_ref_s`. -/
def kDistanceEpsilon : ℝ := 1e-3

/-- `std::numeric_limits<double>::max()`, the initial value of
`shortest_distance` in `PathData::get_path_point_with_ref_s`. -/
def DBL_MAX : ℝ := 1.7976931348623157e308

/-- The scan loop of `PathData::get_path_point_with_ref_s`: `i` is the
absolute index of the head of the remaining list, `index` and `shortest`
are the running first-minimum and its distance; a sample within
`kDistanceEpsilon` of `ref_s` returns its index immediately. -/
noncomputable def refSLoop (ref_s : ℝ) :
    List FrenetFramePoint → ℕ → ℕ → ℝ → ℕ
  | [], _, index, _ => index
  | p :: rest, i, index, shortest =>
    let curr_distance := |ref_s - p.s|
    if curr_distance < kDistanceEpsilon then i
    else if curr_distance < shortest then
      refSLoop ref_s rest (i + 1) i curr_distance
    else
      refSLoop ref_s rest (i + 1) index shortest

/-- `PathData::get_path_point_with_ref_s`: scans the stored Frenet
sequence for `ref_s` and returns the stored Cartesian point at the
chosen index (`none` models the out-of-range access on an empty
container, which the C++ only guards by a debug assertion). -/
noncomputable def get_path_point_with_ref_s (pd : PathData) (ref_s : ℝ) :
    Option PathPoint :=
  pd.discretized_path_[refSLoop ref_s pd.frenet_path_ 0 0 DBL_MAX]?

/-- Spec-side definition, following the spec's words: the first stored
index whose Frenet `s` lies within `kDistanceEpsilon` of `ref_s`, if
any. -/
noncomputable def firstWithinEps (ref_s : ℝ) :
    List FrenetFramePoint → Option ℕ
  | [] => none
  | p :: rest =>
    if |ref_s - p.s| < kDistanceEpsilon then some 0
    else (firstWithinEps ref_s rest).map (· + 1)

/-- Spec-side definition, following the spec's words: `k` is the index
of the stored sample whose Frenet `s` is closest to `ref_s`, ties broken
by the first index attaining the minimum distance. -/
def IsFirstMin (ref_s : ℝ) (fps : List FrenetFramePoint) (k : ℕ) : Prop :=
  k < fps.length ∧
    (∀ j, j < fps.length →
      |ref_s - (fps.getD k default).s| ≤ |ref_s - (fps.getD j default).s|) ∧
    (∀ j, j < k →
      |ref_s - (fps.getD k default).s| < |ref_s - (fps.getD j default).s|)

/-- On a failed Frenet-to-Cartesian conversion the output parameter
keeps its prior value. -/
lemma FrenetToCartesian_failure (rl : ReferenceLine)
    (tr : SLAnalyticTransformation) (frenet_path : List FrenetFramePoint)
    (d0 : List PathPoint) (h : (FrenetToCartesian rl tr frenet_path d0).1 = false) :
    (FrenetToCartesian rl tr frenet_path d0).2 = d0 := by
  cases hl : FrenetToCartesianLoop rl tr frenet_path [] with
  | none => simp [FrenetToCartesian, hl]
  | some l => simp [FrenetToCartesian, hl] at h

/-- On a failed Cartesian-to-Frenet conversion the output parameter
keeps its prior value. -/
lemma CartesianToFrenet_failure (rl : ReferenceLine)
    (discretized_path : List PathPoint) (f0 : List FrenetFramePoint)
    (h : (CartesianToFrenet rl discretized_path f0).1 = false) :
    (CartesianToFrenet rl discretized_path f0).2 = f0 := by
  cases hl : CartesianToFrenetLoop rl discretized_path [] with
  | none => simp [CartesianToFrenet, hl]
  | some l => simp [CartesianToFrenet, hl] at h

/-- The Frenet-to-Cartesian loop adds one output point per input point. -/
lemma FrenetToCartesianLoop_length (rl : ReferenceLine)
    (tr : SLAnalyticTransformation) :
    ∀ (l : List FrenetFramePoint) (acc pts : List PathPoint),
      FrenetToCartesianLoop rl tr l acc = some pts →
      pts.length = acc.length + l.length := by
  intro l
  induction l with
  | nil =>
    intro acc pts h
    simp only [FrenetToCartesianLoop, Option.some.injEq] at h
    simp [← h]
  | cons fp rest ih =>
    intro acc pts h
    simp only [FrenetToCartesianLoop] at h
    cases hq : rl.get_point_in_cartesian_frame ⟨fp.s, fp.l⟩ with
    | none => simp [hq] at h
    | some cp =>
      simp only [hq] at h
      have h2 := ih _ _ h
      simp only [List.length_append, List.length_cons, List.length_nil] at h2 ⊢
      omega

/-- The Cartesian-to-Frenet loop adds one output point per input point. -/
lemma CartesianToFrenetLoop_length (rl : ReferenceLine) :
    ∀ (l : List PathPoint) (acc pts : List FrenetFramePoint),
      CartesianToFrenetLoop rl l acc = some pts →
      pts.length = acc.length + l.length := by
  intro l
  induction l with
  | nil =>
    intro acc pts h
    simp only [CartesianToFrenetLoop, Option.some.injEq] at h
    simp [← h]
  | cons pp rest ih =>
    intro acc pts h
    simp only [CartesianToFrenetLoop] at h
    cases hq : rl.get_point_in_frenet_frame ⟨pp.x, pp.y⟩ with
    | none => simp [hq] at h
    | some sl =>
      simp only [hq] at h
      have h2 := ih _ _ h
      simp only [List.length_append, List.length_cons, List.length_nil] at h2 ⊢
      omega

/-- C3: both conversion directions fail atomically: whenever the
reference-curve query fails for any point, the function returns `false`
and the output parameter still holds exactly its prior value, not a
truncated sequence. -/
theorem conversions_fail_atomically (rl : ReferenceLine)
    (tr : SLAnalyticTransformation) (frenet_path : List FrenetFramePoint)
    (discretized_path : List PathPoint) (d0 : List PathPoint)
    (f0 : List FrenetFramePoint) :
    ((FrenetToCartesian rl tr frenet_path d0).1 = false →
      (FrenetToCartesian rl tr frenet_path d0).2 = d0) ∧
    ((CartesianToFrenet rl discretized_path f0).1 = false →
      (CartesianToFrenet rl discretized_path f0).2 = f0) :=
  ⟨FrenetToCartesian_failure rl tr frenet_path d0,
   CartesianToFrenet_failure rl discretized_path f0⟩

/-- C5: both conversion directions preserve sequence length on success,
and an empty input succeeds with an empty output. -/
theorem conversions_preserve_length (rl : ReferenceLine)
    (tr : SLAnalyticTransformation) (frenet_path : List FrenetFramePoint)
    (discretized_path : List PathPoint) (d0 : List PathPoint)
    (f0 : List FrenetFramePoint) :
    ((FrenetToCartesian rl tr frenet_path d0).1 = true →
      (FrenetToCartesian rl tr frenet_path d0).2.length = frenet_path.length) ∧
    ((CartesianToFrenet rl discretized_path f0).1 = true →
      (CartesianToFrenet rl discretized_path f0).2.length =
        discretized_path.length) ∧
    FrenetToCartesian rl tr [] d0 = (true, []) ∧
    CartesianToFrenet rl [] f0 = (true, []) := by
  refine ⟨?_, ?_, ?_, ?_⟩
  · intro h
    cases hl : FrenetToCartesianLoop rl tr frenet_path [] with
    | none => simp [FrenetToCartesian, hl] at h
    | some l =>
      have := FrenetToCartesianLoop_length rl tr frenet_path [] l hl
      simp [FrenetToCartesian, hl]
      simpa using this
  · intro h
    cases hl : CartesianToFrenetLoop rl discretized_path [] with
    | none => simp [CartesianToFrenet, hl] at h
    | some l =>
      have := CartesianToFrenetLoop_length rl discretized_path [] l hl
      simp [CartesianToFrenet, hl]
      simpa using this
  · simp [FrenetToCartesian, FrenetToCartesianLoop]
  · simp [CartesianToFrenet, CartesianToFrenetLoop]

/-- C6: with no reference line bound, both set operations report
failure. -/
theorem set_requires_reference_line (tr : SLAnalyticTransformation)
    (pd : PathData) (path : List PathPoint) (fp : List FrenetFramePoint)
    (h : pd.reference_line_ = none) :
    (set_discretized_path pd path).1 = false ∧
    (set_frenet_path tr pd fp).1 = false := by
  constructor
  · simp [set_discretized_path, h]
  · simp [set_frenet_path, h]

/-- C7: binding a reference curve (including the unset sentinel) first
clears the container, so afterwards both sequences are empty and the
stored handle equals the argument. -/
theorem set_reference_line_clears (pd : PathData)
    (reference_line : Option ReferenceLine) :
    (set_reference_line pd reference_line).discretized_path_ = [] ∧
    (set_reference_line pd reference_line).frenet_path_ = [] ∧
    (set_reference_line pd reference_line).reference_line_ = reference_line :=
  ⟨rfl, rfl, rfl⟩

/-- C10: when the failure cause is an unbound reference line, the set
operations mutate nothing at all: the returned state is exactly the
prior container state. -/
theorem set_unbound_fully_atomic (tr : SLAnalyticTransformation)
    (pd : PathData) (path : List PathPoint) (fp : List FrenetFramePoint)
    (h : pd.reference_line_ = none) :
    set_discretized_path pd path = (false, pd) ∧
    set_frenet_path tr pd fp = (false, pd) := by
  constructor
  · simp [set_discretized_path, h]
  · simp [set_frenet_path, h]

/-- C9: with a reference line bound, a set operation whose derivation
fails still overwrites the primary sequence with the rejected input,
while the derived sequence and the handle keep their prior values. -/
theorem set_overwrites_primary_on_failed_derivation (rl : ReferenceLine)
    (tr : SLAnalyticTransformation) (pd : PathData) (path : List PathPoint)
    (fp : List FrenetFramePoint) (hrl : pd.reference_line_ = some rl) :
    ((CartesianToFrenet rl path pd.frenet_path_).1 = false →
      set_discretized_path pd path =
        (false, { pd with discretized_path_ := path })) ∧
    ((FrenetToCartesian rl tr fp pd.discretized_path_).1 = false →
      set_frenet_path tr pd fp =
        (false, { pd with frenet_path_ := fp })) := by
  constructor
  · intro h
    have h2 := CartesianToFrenet_failure rl path pd.frenet_path_ h
    simp [set_discretized_path, hrl, h, h2]
  · intro h
    have h2 := FrenetToCartesian_failure rl tr fp pd.discretized_path_ h
    simp [set_frenet_path, hrl, h, h2]

/-- A concrete reference line on which every point query fails. -/
def rlFail : ReferenceLine := ⟨fun _ => none, fun _ => ⟨0, 0, 0⟩, fun _ => none⟩

/-- A concrete straight reference line along the x-axis: the Frenet
frame coincides with the Cartesian frame. -/
def rlLine : ReferenceLine :=
  ⟨fun sl => some ⟨sl.s, sl.l⟩, fun _ => ⟨0, 0, 0⟩, fun v => some ⟨v.x, v.y⟩⟩

/-- A concrete transform instance whose formulas return `0`. -/
def trZero : SLAnalyticTransformation := ⟨fun _ _ _ _ => 0, fun _ _ _ _ _ => 0⟩

/-- Concrete Cartesian sample at the origin. -/
def ppA : PathPoint := ⟨0, 0, 0, 0, 0, 0, 0, 0⟩

/-- Concrete Cartesian sample at `(1, 0)`. -/
def ppB : PathPoint := ⟨1, 0, 0, 0, 0, 0, 0, 0⟩

/-- Concrete Frenet sample at `s = 0`. -/
def ffpA : FrenetFramePoint := ⟨0, 0, 0, 0⟩

/-- Concrete Frenet sample at `s = 1`. -/
def ffpB : FrenetFramePoint := ⟨1, 0, 0, 0⟩

/-- C3 witness: on concrete failing conversions both output parameters
keep their prior one-element values. -/
theorem conversions_fail_atomically_witness :
    (FrenetToCartesian rlFail trZero [ffpB] [ppA]).2 = [ppA] ∧
    (CartesianToFrenet rlFail [ppB] [ffpA]).2 = [ffpA] :=
  ⟨(conversions_fail_atomically rlFail trZero [ffpB] [ppB] [ppA] [ffpA]).1 rfl,
   (conversions_fail_atomically rlFail trZero [ffpB] [ppB] [ppA] [ffpA]).2 rfl⟩

/-- C5 witness: concrete two-point conversions in both directions keep
length `2`. -/
theorem conversions_preserve_length_witness :
    (FrenetToCartesian rlLine trZero [ffpA, ffpB] []).2.length = 2 ∧
    (CartesianToFrenet rlLine [ppA, ppB] []).2.length = 2 := by
  constructor
  · have h :=
      (conversions_preserve_length rlLine trZero [ffpA, ffpB] [] [] []).1 rfl
    simpa using h
  · have h :=
      (conversions_preserve_length rlLine trZero [ffpA, ffpB] [ppA, ppB]
        [] []).2.1 rfl
    simpa using h

/-- C6 witness: on a concrete unbound container both set operations
report failure. -/
theorem set_requires_reference_line_witness :
    (set_discretized_path ⟨none, [], []⟩ [ppA]).1 = false ∧
    (set_frenet_path trZero ⟨none, [], []⟩ [ffpA]).1 = false :=
  set_requires_reference_line trZero ⟨none, [], []⟩ [ppA] [ffpA] rfl

/-- C10 witness: on a concrete unbound container a failing set returns
exactly the prior state. -/
theorem set_unbound_fully_atomic_witness :
    set_discretized_path ⟨none, [ppA], [ffpA]⟩ [ppB] =
      (false, ⟨none, [ppA], [ffpA]⟩) ∧
    set_frenet_path trZero ⟨none, [ppA], [ffpA]⟩ [ffpB] =
      (false, ⟨none, [ppA], [ffpA]⟩) :=
  set_unbound_fully_atomic trZero ⟨none, [ppA], [ffpA]⟩ [ppB] [ffpB] rfl

/-- C9 witness: on a concrete bound container whose projection fails,
the failed set keeps the derived sequence but stores the rejected
input as the primary sequence. -/
theorem set_overwrites_primary_witness :
    set_discretized_path ⟨some rlFail, [ppA], [ffpA]⟩ [ppB] =
      (false, ⟨some rlFail, [ppB], [ffpA]⟩) ∧
    set_frenet_path trZero ⟨some rlFail, [ppA], [ffpA]⟩ [ffpB] =
      (false, ⟨some rlFail, [ppA], [ffpB]⟩) :=
  ⟨(set_overwrites_primary_on_failed_derivation rlFail trZero
      ⟨some rlFail, [ppA], [ffpA]⟩ [ppB] [ffpB] rfl).1 rfl,
   (set_overwrites_primary_on_failed_derivation rlFail trZero
      ⟨some rlFail, [ppA], [ffpA]⟩ [ppB] [ffpB] rfl).2 rfl⟩

/-- C1 counterexample: on a container with a bound reference line whose
projection fails, `set_discretized_path` returns `false` yet the stored
Cartesian sequence no longer equals its prior (empty) value. -/
theorem set_discretized_path_not_rolled_back :
    (set_discretized_path ⟨some rlFail, [], []⟩ [ppB]).1 = false ∧
    (set_discretized_path ⟨some rlFail, [], []⟩ [ppB]).2.discretized_path_ ≠
      ([] : List PathPoint) := by
  constructor
  · rfl
  · intro h
    rw [show (set_discretized_path ⟨some rlFail, [], []⟩
        [ppB]).2.discretized_path_ = [ppB] from rfl] at h
    simp at h

/-- C1 (amended): a failed set leaves the derived sequence at its prior
value, while the primary sequence is either untouched (unbound handle)
or overwritten with the rejected input (failed derivation). -/
theorem set_failure_state_characterization :
    (∀ (pd : PathData) (path : List PathPoint),
      (set_discretized_path pd path).1 = false →
      (set_discretized_path pd path).2.frenet_path_ = pd.frenet_path_ ∧
      ((set_discretized_path pd path).2.discretized_path_ =
          pd.discretized_path_ ∨
        (set_discretized_path pd path).2.discretized_path_ = path)) ∧
    (∀ (tr : SLAnalyticTransformation) (pd : PathData)
        (fp : List FrenetFramePoint),
      (set_frenet_path tr pd fp).1 = false →
      (set_frenet_path tr pd fp).2.discretized_path_ =
        pd.discretized_path_ ∧
      ((set_frenet_path tr pd fp).2.frenet_path_ = pd.frenet_path_ ∨
        (set_frenet_path tr pd fp).2.frenet_path_ = fp)) := by
  constructor
  · intro pd path h
    cases hrl : pd.reference_line_ with
    | none => simp [set_discretized_path, hrl]
    | some rl =>
      simp only [set_discretized_path, hrl] at h ⊢
      have h2 := CartesianToFrenet_failure rl path pd.frenet_path_ h
      exact ⟨h2, Or.inr trivial⟩
  · intro tr pd fp h
    cases hrl : pd.reference_line_ with
    | none => simp [set_frenet_path, hrl]
    | some rl =>
      simp only [set_frenet_path, hrl] at h ⊢
      have h2 := FrenetToCartesian_failure rl tr fp pd.discretized_path_ h
      exact ⟨h2, Or.inr trivial⟩

/-- C1 (amended) witness: concrete failing sets through both entry
points, with the derived sequence kept. -/
theorem set_failure_state_witness :
    (set_discretized_path ⟨some rlFail, [ppA], [ffpA]⟩ [ppB]).2.frenet_path_ =
      [ffpA] ∧
    (set_frenet_path trZero ⟨some rlFail, [ppA], [ffpA]⟩
        [ffpB]).2.discretized_path_ = [ppA] :=
  ⟨(set_failure_state_characterization.1
      ⟨some rlFail, [ppA], [ffpA]⟩ [ppB] rfl).1,
   (set_failure_state_characterization.2 trZero
      ⟨some rlFail, [ppA], [ffpA]⟩ [ffpB] rfl).1⟩

/-- Pointwise description of a successful Cartesian-to-Frenet loop run:
the output extends the accumulator by one projected point per input
point, each with `dl = ddl = 0`. -/
lemma CartesianToFrenetLoop_forall2 (rl : ReferenceLine) :
    ∀ (dps : List PathPoint) (acc out : List FrenetFramePoint),
      CartesianToFrenetLoop rl dps acc = some out →
      ∃ tl, out = acc ++ tl ∧
        List.Forall₂ (fun (pp : PathPoint) (fp : FrenetFramePoint) =>
          fp.dl = 0 ∧ fp.ddl = 0 ∧
          rl.get_point_in_frenet_frame ⟨pp.x, pp.y⟩ = some ⟨fp.s, fp.l⟩)
          dps tl := by
  intro dps
  induction dps with
  | nil =>
    intro acc out h
    simp only [CartesianToFrenetLoop, Option.some.injEq] at h
    exact ⟨[], by simp [← h], List.Forall₂.nil⟩
  | cons pp rest ih =>
    intro acc out h
    simp only [CartesianToFrenetLoop] at h
    cases hq : rl.get_point_in_frenet_frame ⟨pp.x, pp.y⟩ with
    | none => simp [hq] at h
    | some sl =>
      simp only [hq] at h
      obtain ⟨tl, hout, hfa⟩ := ih _ _ h
      refine ⟨⟨sl.s, sl.l, 0, 0⟩ :: tl, by simp [hout], ?_⟩
      exact List.Forall₂.cons ⟨rfl, rfl, hq⟩ hfa

/-- C8: every point of a successful Cartesian-to-Frenet conversion
carries the projected `s` and `l` from the reference line while `dl`
and `ddl` are left at zero. -/
theorem cartesian_to_frenet_projected_fields (rl : ReferenceLine)
    (discretized_path : List PathPoint) (f0 out : List FrenetFramePoint)
    (h : CartesianToFrenet rl discretized_path f0 = (true, out)) :
    List.Forall₂ (fun pp fp => fp.dl = 0 ∧ fp.ddl = 0 ∧
      rl.get_point_in_frenet_frame ⟨pp.x, pp.y⟩ = some ⟨fp.s, fp.l⟩)
      discretized_path out := by
  cases hl : CartesianToFrenetLoop rl discretized_path [] with
  | none => simp [CartesianToFrenet, hl] at h
  | some l =>
    have h2 : l = out := by simp [CartesianToFrenet, hl] at h; exact h
    obtain ⟨tl, hout, hfa⟩ :=
      CartesianToFrenetLoop_forall2 rl discretized_path [] l hl
    rw [← h2, hout, List.nil_append]
    exact hfa

/-- C8 witness: converting the concrete point `(1, 0)` over the straight
reference line projects to `s = 1`, `l = 0` with `dl = ddl = 0`. -/
theorem cartesian_to_frenet_projected_fields_witness :
    CartesianToFrenet rlLine [ppB] [] =
      (true, ([⟨1, 0, 0, 0⟩] : List FrenetFramePoint)) ∧
    List.Forall₂ (fun (pp : PathPoint) (fp : FrenetFramePoint) =>
      fp.dl = 0 ∧ fp.ddl = 0 ∧
      rlLine.get_point_in_frenet_frame ⟨pp.x, pp.y⟩ = some ⟨fp.s, fp.l⟩)
      [ppB] [⟨1, 0, 0, 0⟩] :=
  ⟨rfl, cartesian_to_frenet_projected_fields rlLine [ppB] [] [⟨1, 0, 0, 0⟩] rfl⟩

/-- The arc-length increment used by `FrenetToCartesian`: the Euclidean
distance between two consecutive output positions. -/
noncomputable def stepDist (p q : PathPoint) : ℝ :=
  (Vec2d.sub ⟨p.x, p.y⟩ ⟨q.x, q.y⟩).Length

/-- Adjacent arc-length recurrence along a list, starting at `prev`. -/
def ArcChain : PathPoint → List PathPoint → Prop
  | _, [] => True
  | prev, q :: rest => q.s = prev.s + stepDist prev q ∧ ArcChain q rest

/-- The output arc-length invariant: first `s` is `0`, each later `s`
adds the Euclidean step from its predecessor. -/
def ArcOK : List PathPoint → Prop
  | [] => True
  | p :: rest => p.s = 0 ∧ ArcChain p rest

/-- The last element of `a :: t` is the last of `t`, defaulting to `a`. -/
lemma getLast?_cons_getD {α : Type _} :
    ∀ (t : List α) (a : α), (a :: t).getLast? = some (t.getLast?.getD a) := by
  intro t
  induction t with
  | nil => intro a; simp
  | cons b u ih =>
    intro a
    rw [List.getLast?_cons_cons, ih b]
    simp

/-- Appending one point preserves the arc-length chain when its `s` is
the last element's `s` plus the Euclidean step. -/
lemma ArcChain_snoc :
    ∀ (rest : List PathPoint) (a pp : PathPoint), ArcChain a rest →
      pp.s = (rest.getLast?.getD a).s + stepDist (rest.getLast?.getD a) pp →
      ArcChain a (rest ++ [pp]) := by
  intro rest
  induction rest with
  | nil =>
    intro a pp _ hs
    exact ⟨by simpa using hs, trivial⟩
  | cons b t ih =>
    intro a pp hc hs
    obtain ⟨hb, hct⟩ := hc
    refine ⟨hb, ih b pp hct ?_⟩
    rw [getLast?_cons_getD t b] at hs
    simpa using hs

/-- Appending one point preserves the arc-length invariant when its `s`
is built exactly the way the loop builds it. -/
lemma ArcOK_snoc (acc : List PathPoint) (pp : PathPoint) (hacc : ArcOK acc)
    (hs : pp.s = match acc.getLast? with
      | none => (0 : ℝ)
      | some last => last.s + stepDist last pp) :
    ArcOK (acc ++ [pp]) := by
  cases acc with
  | nil => exact ⟨by simpa using hs, trivial⟩
  | cons a t =>
    obtain ⟨ha, hct⟩ := hacc
    refine ⟨ha, ArcChain_snoc t a pp hct ?_⟩
    rw [getLast?_cons_getD t a] at hs
    simpa using hs

/-- The Frenet-to-Cartesian loop preserves the arc-length invariant of
its accumulator. -/
lemma FrenetToCartesianLoop_ArcOK (rl : ReferenceLine)
    (tr : SLAnalyticTransformation) :
    ∀ (l : List FrenetFramePoint) (acc pts : List PathPoint),
      ArcOK acc → FrenetToCartesianLoop rl tr l acc = some pts →
      ArcOK pts := by
  intro l
  induction l with
  | nil =>
    intro acc pts ha h
    simp only [FrenetToCartesianLoop, Option.some.injEq] at h
    rwa [← h]
  | cons fp rest ih =>
    intro acc pts ha h
    simp only [FrenetToCartesianLoop] at h
    cases hq : rl.get_point_in_cartesian_frame ⟨fp.s, fp.l⟩ with
    | none => simp [hq] at h
    | some cp =>
      simp only [hq] at h
      cases hgl : acc.getLast? with
      | none =>
        simp only [hgl] at h
        refine ih _ pts (ArcOK_snoc acc _ ha ?_) h
        rw [hgl]
      | some last =>
        simp only [hgl] at h
        refine ih _ pts (ArcOK_snoc acc _ ha ?_) h
        rw [hgl]
        rfl

/-- The head of an `ArcOK` list has arc length `0`. -/
lemma ArcOK_head (pts : List PathPoint) (h : ArcOK pts) :
    ∀ p0, pts.head? = some p0 → p0.s = 0 := by
  cases pts with
  | nil => intro p0 hp; simp at hp
  | cons p rest =>
    intro p0 hp
    simp only [List.head?_cons, Option.some.injEq] at hp
    rw [← hp]
    exact h.1

/-- Index form of the chain recurrence: adjacent elements of
`prev :: l` differ by the Euclidean step. -/
lemma ArcChain_getD :
    ∀ (l : List PathPoint) (prev : PathPoint), ArcChain prev l →
      ∀ k, k + 1 < (prev :: l).length →
        ((prev :: l).getD (k + 1) default).s =
          ((prev :: l).getD k default).s +
            stepDist ((prev :: l).getD k default)
              ((prev :: l).getD (k + 1) default) := by
  intro l
  induction l with
  | nil => intro prev _ k hk; simp at hk
  | cons q rest ih =>
    intro prev hc k hk
    obtain ⟨hq, hcr⟩ := hc
    cases k with
    | zero => simpa using hq
    | succ j =>
      have hj : j + 1 < (q :: rest).length := by
        simp only [List.length_cons] at hk ⊢
        omega
      have h2 := ih q hcr j hj
      simpa [List.getD_cons_succ] using h2

/-- Index form of the arc-length invariant. -/
lemma ArcOK_getD (pts : List PathPoint) (h : ArcOK pts) :
    ∀ k, k + 1 < pts.length →
      (pts.getD (k + 1) default).s =
        (pts.getD k default).s +
          stepDist (pts.getD k default) (pts.getD (k + 1) default) := by
  cases pts with
  | nil => intro k hk; simp at hk
  | cons p rest => exact fun k hk => ArcChain_getD rest p h.2 k hk

/-- The arc-length invariant makes the `s` values non-decreasing. -/
lemma ArcOK_mono (pts : List PathPoint) (h : ArcOK pts) :
    ∀ i j, i ≤ j → j < pts.length →
      (pts.getD i default).s ≤ (pts.getD j default).s := by
  intro i j hij
  induction j, hij using Nat.le_induction with
  | base => intro _; exact le_refl _
  | succ j hij ih =>
    intro hj
    have h1 := ih (by omega)
    have h2 := ArcOK_getD pts h j hj
    have h3 : 0 ≤ stepDist (pts.getD j default) (pts.getD (j + 1) default) :=
      Real.sqrt_nonneg _
    linarith

/-- C4: on a successful Frenet-to-Cartesian conversion the output arc
lengths start at exactly `0`, each subsequent `s` adds the Euclidean
distance between consecutive output positions (re-derived, not copied
from the Frenet `s`), and the `s` values are non-decreasing. -/
theorem frenet_to_cartesian_arc_length (rl : ReferenceLine)
    (tr : SLAnalyticTransformation) (frenet_path : List FrenetFramePoint)
    (d0 pts : List PathPoint)
    (h : FrenetToCartesian rl tr frenet_path d0 = (true, pts)) :
    (∀ p0, pts.head? = some p0 → p0.s = 0) ∧
    (∀ k, k + 1 < pts.length →
      (pts.getD (k + 1) default).s =
        (pts.getD k default).s +
          stepDist (pts.getD k default) (pts.getD (k + 1) default)) ∧
    (∀ i j, i ≤ j → j < pts.length →
      (pts.getD i default).s ≤ (pts.getD j default).s) := by
  cases hl : FrenetToCartesianLoop rl tr frenet_path [] with
  | none => simp [FrenetToCartesian, hl] at h
  | some l =>
    have hlp : l = pts := by simp [FrenetToCartesian, hl] at h; exact h
    have hok : ArcOK pts := by
      rw [← hlp]
      exact FrenetToCartesianLoop_ArcOK rl tr frenet_path [] l trivial hl
    exact ⟨ArcOK_head pts hok, ArcOK_getD pts hok, ArcOK_mono pts hok⟩

/-- C4 witness: on the straight reference line, a concrete two-point
conversion succeeds and its two output arc lengths are ordered. -/
theorem frenet_to_cartesian_arc_length_witness :
    FrenetToCartesian rlLine trZero [ffpA, ffpB] [] =
      (true, (FrenetToCartesian rlLine trZero [ffpA, ffpB] []).2) ∧
    ((FrenetToCartesian rlLine trZero [ffpA, ffpB] []).2.getD 0 default).s ≤
      ((FrenetToCartesian rlLine trZero [ffpA, ffpB] []).2.getD 1 default).s := by
  have hlen : (FrenetToCartesian rlLine trZero [ffpA, ffpB] []).2.length = 2 :=
    rfl
  refine ⟨rfl, ?_⟩
  have h := frenet_to_cartesian_arc_length rlLine trZero [ffpA, ffpB] []
    (FrenetToCartesian rlLine trZero [ffpA, ffpB] []).2 rfl
  exact h.2.2 0 1 (by omega) (by rw [hlen]; omega)

/-- If some sample lies within `kDistanceEpsilon`, the scan loop
early-returns the absolute index of the first such sample, whatever the
running state. -/
lemma refSLoop_within_eps (ref_s : ℝ) :
    ∀ (l : List FrenetFramePoint) (k : ℕ), firstWithinEps ref_s l = some k →
      ∀ (i index : ℕ) (shortest : ℝ),
        refSLoop ref_s l i index shortest = i + k := by
  intro l
  induction l with
  | nil => intro k hk; simp [firstWithinEps] at hk
  | cons p rest ih =>
    intro k hk i index shortest
    by_cases hp : |ref_s - p.s| < kDistanceEpsilon
    · simp only [firstWithinEps, if_pos hp, Option.some.injEq] at hk
      simp only [refSLoop, if_pos hp]
      omega
    · simp only [firstWithinEps, if_neg hp] at hk
      cases hk2 : firstWithinEps ref_s rest with
      | none => rw [hk2] at hk; simp at hk
      | some k2 =>
        rw [hk2] at hk
        simp at hk
        simp only [refSLoop, if_neg hp]
        by_cases hs : |ref_s - p.s| < shortest
        · rw [if_pos hs, ih k2 hk2 (i + 1) i _]
          omega
        · rw [if_neg hs, ih k2 hk2 (i + 1) index shortest]
          omega

/-- If no remaining sample is within `kDistanceEpsilon` and none is
strictly closer than `shortest`, the scan loop keeps `index`. -/
lemma refSLoop_no_update (ref_s : ℝ) :
    ∀ (l : List FrenetFramePoint) (i index : ℕ) (shortest : ℝ),
      (∀ p ∈ l, ¬ |ref_s - p.s| < kDistanceEpsilon) →
      (∀ p ∈ l, ¬ |ref_s - p.s| < shortest) →
      refSLoop ref_s l i index shortest = index := by
  intro l
  induction l with
  | nil => intro i index shortest _ _; rfl
  | cons p rest ih =>
    intro i index shortest heps hsh
    have hp1 := heps p (by simp)
    have hp2 := hsh p (by simp)
    simp only [refSLoop, if_neg hp1, if_neg hp2]
    exact ih (i + 1) index shortest (fun q hq => heps q (by simp [hq]))
      (fun q hq => hsh q (by simp [hq]))

/-- An element of a list is a `getD` value at some index. -/
lemma mem_getD {α : Type _} [Inhabited α] {l : List α} {q : α} (hq : q ∈ l) :
    ∃ j, j < l.length ∧ l.getD j default = q := by
  obtain ⟨⟨j, hj⟩, hget⟩ := List.mem_iff_get.mp hq
  exact ⟨j, hj, by rw [List.getD_eq_getElem l default hj, ← hget]; rfl⟩

/-- If no sample is within `kDistanceEpsilon` and the first-minimum
index `k` beats `shortest`, the scan loop returns the absolute index
`i + k`. -/
lemma refSLoop_first_min (ref_s : ℝ) :
    ∀ (l : List FrenetFramePoint) (k i index : ℕ) (shortest : ℝ),
      (∀ p ∈ l, ¬ |ref_s - p.s| < kDistanceEpsilon) →
      k < l.length →
      |ref_s - (l.getD k default).s| < shortest →
      (∀ j, j < l.length →
        |ref_s - (l.getD k default).s| ≤ |ref_s - (l.getD j default).s|) →
      (∀ j, j < k →
        |ref_s - (l.getD k default).s| < |ref_s - (l.getD j default).s|) →
      refSLoop ref_s l i index shortest = i + k := by
  intro l
  induction l with
  | nil => intro k i index shortest _ hk; simp at hk
  | cons p rest ih =>
    intro k i index shortest heps hk hsh hmin hfirst
    have hp1 := heps p (by simp)
    cases k with
    | zero =>
      simp only [List.getD_cons_zero] at hsh hmin
      simp only [refSLoop, if_neg hp1, if_pos hsh]
      rw [refSLoop_no_update ref_s rest (i + 1) i _
        (fun q hq => heps q (by simp [hq])) ?_]
      · omega
      · intro q hq
        obtain ⟨j, hj, rfl⟩ := mem_getD hq
        have := hmin (j + 1) (by simpa using Nat.succ_lt_succ hj)
        simp only [List.getD_cons_succ] at this
        exact not_lt.mpr this
    | succ j2 =>
      simp only [List.getD_cons_succ] at hsh hmin hfirst ⊢
      have hk2 : j2 < rest.length := by simpa using hk
      by_cases hps : |ref_s - p.s| < shortest
      · simp only [refSLoop, if_neg hp1, if_pos hps]
        rw [ih j2 (i + 1) i (|ref_s - p.s|)
          (fun q hq => heps q (by simp [hq])) hk2 ?_ ?_ ?_]
        · omega
        · have := hfirst 0 (Nat.succ_pos j2)
          simpa using this
        · intro j hj
          have := hmin (j + 1) (by simpa using Nat.succ_lt_succ hj)
          simpa using this
        · intro j hj
          have := hfirst (j + 1) (Nat.succ_lt_succ hj)
          simpa using this
      · simp only [refSLoop, if_neg hp1, if_neg hps]
        rw [ih j2 (i + 1) index shortest
          (fun q hq => heps q (by simp [hq])) hk2 hsh ?_ ?_]
        · omega
        · intro j hj
          have := hmin (j + 1) (by simpa using Nat.succ_lt_succ hj)
          simpa using this
        · intro j hj
          have := hfirst (j + 1) (Nat.succ_lt_succ hj)
          simpa using this

/-- When `firstWithinEps` finds nothing, no sample is within
`kDistanceEpsilon`. -/
lemma firstWithinEps_none (ref_s : ℝ) :
    ∀ (l : List FrenetFramePoint), firstWithinEps ref_s l = none →
      ∀ p ∈ l, ¬ |ref_s - p.s| < kDistanceEpsilon := by
  intro l
  induction l with
  | nil => intro _ p hp; simp at hp
  | cons q rest ih =>
    intro h p hp
    by_cases hq : |ref_s - q.s| < kDistanceEpsilon
    · simp [firstWithinEps, if_pos hq] at h
    · simp only [firstWithinEps, if_neg hq] at h
      rw [Option.map_eq_none'] at h
      rcases List.mem_cons.mp hp with rfl | hp2
      · exact hq
      · exact ih h p hp2

/-- C2 (amended): the lookup returns the stored Cartesian point at the
first index whose Frenet `s` is within `kDistanceEpsilon` of `ref_s`
when such an index exists, and otherwise at the first index attaining
the minimal distance (provided that distance is below the `DBL_MAX`
initial bound). -/
theorem get_path_point_with_ref_s_characterization (pd : PathData)
    (ref_s : ℝ) (k : ℕ)
    (hk : firstWithinEps ref_s pd.frenet_path_ = some k ∨
      (firstWithinEps ref_s pd.frenet_path_ = none ∧
        |ref_s - (pd.frenet_path_.getD k default).s| < DBL_MAX ∧
        IsFirstMin ref_s pd.frenet_path_ k)) :
    get_path_point_with_ref_s pd ref_s = pd.discretized_path_[k]? := by
  rcases hk with hk | ⟨hnone, hmax, hlen, hmin, hfirst⟩
  · unfold get_path_point_with_ref_s
    rw [refSLoop_within_eps ref_s pd.frenet_path_ k hk 0 0 DBL_MAX]
    simp
  · unfold get_path_point_with_ref_s
    rw [refSLoop_first_min ref_s pd.frenet_path_ k 0 0 DBL_MAX
      (firstWithinEps_none ref_s pd.frenet_path_ hnone) hlen hmax hmin hfirst]
    simp

/-- Concrete Frenet sample at `s = 0.0005`, within epsilon of `0`. -/
def ffpNear : FrenetFramePoint := ⟨0.0005, 0, 0, 0⟩

/-- C2 counterexample: on Frenet `s` values `[0.0005, 0]` queried at
`ref_s = 0`, the early epsilon-return picks index `0`, although the
first-minimum scan index is `1` and the stored Cartesian points at the
two indices differ. -/
theorem ref_s_early_return_not_closest :
    get_path_point_with_ref_s ⟨some rlLine, [ppA, ppB], [ffpNear, ffpA]⟩ 0 =
      some ppA ∧
    IsFirstMin 0 [ffpNear, ffpA] 1 ∧ ppA ≠ ppB := by
  have h1 : |(0 : ℝ) - ffpNear.s| < kDistanceEpsilon := by
    rw [show ffpNear.s = (0.0005 : ℝ) from rfl, zero_sub, abs_neg,
      abs_of_nonneg (by norm_num)]
    norm_num [kDistanceEpsilon]
  refine ⟨?_, ⟨by norm_num, ?_, ?_⟩, ?_⟩
  · unfold get_path_point_with_ref_s
    simp only [refSLoop, if_pos h1]
    rfl
  · intro j hj
    simp only [List.length_cons, List.length_nil] at hj
    interval_cases j
    · rw [show (([ffpNear, ffpA] : List FrenetFramePoint).getD 1 default).s =
          (0 : ℝ) from rfl,
        show (([ffpNear, ffpA] : List FrenetFramePoint).getD 0 default).s =
          (0.0005 : ℝ) from rfl]
      rw [sub_zero, abs_zero, zero_sub, abs_neg, abs_of_nonneg (by norm_num)]
      norm_num
    · exact le_refl _
  · intro j hj
    interval_cases j
    rw [show ((([ffpNear, ffpA] : List FrenetFramePoint)).getD 1 default).s =
        (0 : ℝ) from rfl,
      show (([ffpNear, ffpA] : List FrenetFramePoint).getD 0 default).s =
        (0.0005 : ℝ) from rfl]
    rw [sub_zero, abs_zero, zero_sub, abs_neg, abs_of_nonneg (by norm_num)]
    norm_num
  · intro h
    have hx := congrArg PathPoint.x h
    rw [show ppA.x = (0 : ℝ) from rfl, show ppB.x = (1 : ℝ) from rfl] at hx
    norm_num at hx

/-- Concrete Frenet sample at `s = 0.5`. -/
def ffpHalf : FrenetFramePoint := ⟨0.5, 0, 0, 0⟩

/-- Concrete Frenet sample at `s = 1.2`. -/
def ffpLong : FrenetFramePoint := ⟨1.2, 0, 0, 0⟩

/-- Concrete Cartesian sample at `(2, 0)`. -/
def ppC : PathPoint := ⟨2, 0, 0, 0, 0, 0, 0, 0⟩

/-- C2 (amended) witness: on Frenet `s` values `[0, 0.5, 1.2]` queried
at `ref_s = 0.5005`, the first index within epsilon is `1` and the
lookup returns the stored Cartesian point at index `1`. -/
theorem get_path_point_with_ref_s_characterization_witness :
    firstWithinEps 0.5005 [ffpA, ffpHalf, ffpLong] = some 1 ∧
    get_path_point_with_ref_s
      ⟨some rlLine, [ppA, ppB, ppC], [ffpA, ffpHalf, ffpLong]⟩ 0.5005 =
      some ppB := by
  have h0 : ¬ |(0.5005 : ℝ) - ffpA.s| < kDistanceEpsilon := by
    rw [show ffpA.s = (0 : ℝ) from rfl, sub_zero,
      abs_of_nonneg (by norm_num)]
    norm_num [kDistanceEpsilon]
  have h1 : |(0.5005 : ℝ) - ffpHalf.s| < kDistanceEpsilon := by
    rw [show ffpHalf.s = (0.5 : ℝ) from rfl, abs_of_nonneg (by norm_num)]
    norm_num [kDistanceEpsilon]
  have hfwe : firstWithinEps (0.5005 : ℝ) [ffpA, ffpHalf, ffpLong] = some 1 := by
    simp only [firstWithinEps, if_neg h0, if_pos h1]
    rfl
  refine ⟨hfwe, ?_⟩
  rw [get_path_point_with_ref_s_characterization
    ⟨some rlLine, [ppA, ppB, ppC], [ffpA, ffpHalf, ffpLong]⟩ 0.5005 1
    (Or.inl hfwe)]
  rfl

end Apollo
